import Mathlib

/-!
Verification of the GLAM simulation core (`glambox/simulation.py`).

The Python module is embedded shallowly:

* numpy float arithmetic is idealised as real arithmetic (`ℝ`); the data
  tables consumed by `predict` hold exact numbers, idealised as `ℚ`;
* every random draw is an explicit oracle argument (`Draws`): the uniform
  branch draw, the uniform error-response draw, the random error choice and
  the inverse-Gaussian first-passage sampler, so each simulated trial is a
  deterministic function of its oracles;
* numpy/pandas failures (reduction over an empty array, assigning an empty
  selection into a scalar slot) are `Except.error .valueError`; the race
  branch's unbounded `while np.isnan(rt)` loop is totalised with a classical
  search: if some iteration yields a valid draw the first such iteration is
  returned, otherwise the function yields `.error .nonTermination`, the
  marker for the loop never exiting.
-/

open scoped Classical

/-- Outcomes of a simulation call that do not produce a value.
`valueError` models the `ValueError` numpy/pandas raise (empty reduction,
empty-to-scalar assignment); `nonTermination` marks the race loop never
exiting. `missingEstimate` is modelled from the spec: §7 demands a distinct
`MissingEstimate` condition for estimate-resolution failures; the code has no
such condition, the constructor exists so the spec's demand can be stated. -/
inductive PyErr where
  | valueError
  | missingEstimate
  | nonTermination
deriving DecidableEq

/-- `A = gaze * values + (1. - gaze) * gamma * values` from `make_R`. -/
def attValue {n : ℕ} (gamma : ℝ) (values gaze : Fin n → ℝ) (i : Fin n) : ℝ :=
  gaze i * values i + (1 - gaze i) * gamma * values i

/-- `make_R(v, tau, gamma, values, gaze)`: for each item `i` the loop takes
`others = arange(n)[arange(n) != i]` and `R_star[i] = A[i] - max(A[others])`,
then `R = v / (1 + exp(-tau * R_star))`.  `np.max` over the empty `others`
selection raises, hence the `none` branch (it fires exactly when some item
has no other items, i.e. `n = 1`). -/
noncomputable def make_R {n : ℕ} (v tau gamma : ℝ) (values gaze : Fin n → ℝ) :
    Option (Fin n → ℝ) :=
  if h : ∀ i : Fin n, ((Finset.univ : Finset (Fin n)).erase i).Nonempty then
    some (fun i =>
      v / (1 + Real.exp (-tau *
        (attValue gamma values gaze i -
          ((Finset.univ : Finset (Fin n)).erase i).sup' (h i)
            (attValue gamma values gaze)))))
  else none

/-- One first-passage draw of the race branch, iteration `k`, item `i`:
`mu = boundary / R[i]`, `lam = (boundary / s)**2`,
`FPTs[i] = invgauss.rvs(mu=mu / lam, scale=lam)`.  The sampler itself is the
oracle `smp`, consuming the `mu/lam` and `lam` arguments exactly as
`scipy.stats.invgauss.rvs` does. -/
noncomputable def FPT {n : ℕ} (boundary s : ℝ) (R : Fin n → ℝ)
    (smp : ℕ → Fin n → ℝ → ℝ → ℝ) (k : ℕ) (i : Fin n) : ℝ :=
  let mu := boundary / R i
  let lam := (boundary / s) ^ 2
  smp k i (mu / lam) lam

/-- `np.argmin`: the least index attaining the minimum of `f`. -/
noncomputable def argminFin {n : ℕ} (f : Fin n → ℝ)
    (h : (Finset.univ : Finset (Fin n)).Nonempty) : Fin n :=
  (Finset.univ.filter fun i => f i = Finset.univ.inf' h f).min' (by
    obtain ⟨i, hi, hfi⟩ := Finset.exists_mem_eq_inf' h f
    exact ⟨i, Finset.mem_filter.mpr ⟨hi, hfi.symm⟩⟩)

/-- The random draws one call to `simulate_trial` may consume: `u` is
`np.random.uniform(0, 1)` deciding the branch, `uerr` the uniform draw the
error branch rescales over `error_range`, `echoice` the value of
`np.random.choice(n_items)`, and `fpt k i mean scale` the inverse-Gaussian
draw of iteration `k` for item `i` at the given `(mean, scale)` arguments. -/
structure Draws (m : ℕ) where
  u : ℝ
  uerr : ℝ
  echoice : ℕ
  fpt : ℕ → Fin m → ℝ → ℝ → ℝ

/-- `simulate_trial(parameters, values, gaze, boundary, error_weight,
error_range)`.  Error branch when `u < error_weight`: a uniform rt over
`error_range` (written `lo + (hi - lo) * uerr`) and a random choice
(`np.random.choice(0)` raises for zero items).  Race branch: compute `R`
(raises for a single item), sample the first-passage times, and repeat until
`min(FPTs)` is valid; the first valid iteration yields
`(argmin(FPTs), min(FPTs) + t0)`, and if no iteration is valid the loop never
exits (`nonTermination`).  `min` over an empty item set raises. -/
noncomputable def simulate_trial {m : ℕ} (v gamma s tau t0 boundary error_weight : ℝ)
    (values gaze : Fin m → ℝ) (error_range : ℝ × ℝ) (d : Draws m) :
    Except PyErr (ℕ × ℝ) :=
  if d.u < error_weight then
    if 0 < m then
      .ok (d.echoice % m, error_range.1 + (error_range.2 - error_range.1) * d.uerr)
    else .error .valueError
  else
    match make_R v tau gamma values gaze with
    | none => .error .valueError
    | some R =>
      if hm : (Finset.univ : Finset (Fin m)).Nonempty then
        if hex : ∃ k, 0 ≤ Finset.univ.inf' hm (FPT boundary s R d.fpt k) then
          .ok ((argminFin (FPT boundary s R d.fpt (Nat.find hex)) hm).val,
            Finset.univ.inf' hm (FPT boundary s R d.fpt (Nat.find hex)) + t0)
        else .error .nonTermination
      else .error .valueError

/-- A `for` loop collecting one result per element, aborting on the first
failure (a raised exception aborts the Python loop). -/
def exceptMap {α β : Type} (f : α → Except PyErr β) : List α → Except PyErr (List β)
  | [] => .ok []
  | x :: xs => do
    let y ← f x
    let ys ← exceptMap f xs
    pure (y :: ys)

/-- A `for` loop appending a block of rows per element, aborting on the first
failure. -/
def exceptFlatMap {α β : Type} (f : α → Except PyErr (List β)) :
    List α → Except PyErr (List β)
  | [] => .ok []
  | x :: xs => do
    let g ← f x
    let rest ← exceptFlatMap f xs
    pure (g ++ rest)

/-- One row of the table `simulate_subject` assembles: subject id, trial
index, repeat index, choice, rt, and the trial's value/gaze columns. -/
structure SimRow (m : ℕ) where
  subject : ℝ
  trialIdx : ℕ
  repIdx : ℕ
  choice : ℕ
  rt : ℝ
  itemValues : Fin m → ℝ
  gazes : Fin m → ℝ

/-- `simulate_subject`: iterate trials in order, repeats in order, one
`simulate_trial` call per (trial, repeat), collecting the flat table. -/
noncomputable def simulate_subject {m : ℕ} (v gamma s tau t0 : ℝ)
    (values gaze : ℕ → Fin m → ℝ) (n_trials n_repeats : ℕ)
    (subject boundary error_weight : ℝ) (error_range : ℝ × ℝ)
    (draws : ℕ → ℕ → Draws m) : Except PyErr (List (SimRow m)) :=
  exceptFlatMap (fun trial =>
      exceptMap (fun rep =>
          (simulate_trial v gamma s tau t0 boundary error_weight (values trial)
              (gaze trial) error_range (draws trial rep)).map
            (fun p => ⟨subject, trial, rep, p.1, p.2, values trial, gaze trial⟩))
        (List.range n_repeats))
    (List.range n_trials)

/-- An observed-data or estimates row: a total assignment of (exact) numbers
to column names. -/
def QRow : Type := String → ℚ

/-- A predictive-table row: simulated values are reals. -/
def RRow : Type := String → ℝ

/-- The fitted model object `predict` consumes: observed trials, parameter
estimates, and the dependency map `parameter → condition column or absent`;
`m` is the item count. -/
structure Model (m : ℕ) where
  data : List QRow
  estimates : List QRow
  depends_on : String → Option String

/-- The five parameter columns, in the order `predict` resolves them. -/
def paramNames : List String := ["v", "gamma", "s", "tau", "t0"]

/-- Parameter resolution for one trial row: restrict the estimates to the
row's subject; with a declared dependency, further restrict to the rows whose
condition column matches the trial's, and take the first match (`head(1)`);
without one, take the subject's first estimate.  Assigning the empty
selection into the scalar `parameters[p]` raises a `ValueError`. -/
def resolveParam {m : ℕ} (M : Model m) (row : QRow) (pname : String) :
    Except PyErr ℚ :=
  let subject_estimates :=
    M.estimates.filter fun e => decide (e "subject" = row "subject")
  match M.depends_on pname with
  | some dep =>
    match (subject_estimates.filter fun e => decide (e dep = row dep)).head? with
    | some e => .ok (e pname)
    | none => .error .valueError
  | none =>
    match subject_estimates.head? with
    | some e => .ok (e pname)
    | none => .error .valueError

/-- The observed rt column restricted to the row's subject:
`model.data['rt'][model.data['subject'] == subject]`. -/
def subjectRTList {m : ℕ} (M : Model m) (row : QRow) : List ℚ :=
  (M.data.filter fun rr => decide (rr "subject" = row "subject")).map
    fun rr => rr "rt"

/-- `.values.min()`: numpy's reduction raises on an empty array. -/
def qListMin : List ℚ → Except PyErr ℚ
  | [] => .error .valueError
  | x :: xs => .ok (xs.foldl min x)

/-- `.values.max()`: numpy's reduction raises on an empty array. -/
def qListMax : List ℚ → Except PyErr ℚ
  | [] => .error .valueError
  | x :: xs => .ok (xs.foldl max x)

/-- The trial's item values `row[value_cols]`, as reals. -/
def rowVals {m : ℕ} (row : QRow) (i : Fin m) : ℝ :=
  ((row ("item_value_" ++ toString i.val) : ℚ) : ℝ)

/-- The trial's gaze vector `row[gaze_cols]`, as reals. -/
def rowGaze {m : ℕ} (row : QRow) (i : Fin m) : ℝ :=
  ((row ("gaze_" ++ toString i.val) : ℚ) : ℝ)

/-- `pred_row = row.copy()` followed by overwriting `choice`, `rt` and
`repeat` with the simulated values. -/
noncomputable def updateRow (row : QRow) (choice : ℕ) (rt : ℝ) (rep : ℕ) : RRow :=
  fun c =>
    if c = "choice" then (choice : ℝ)
    else if c = "rt" then rt
    else if c = "repeat" then (rep : ℝ)
    else ((row c : ℚ) : ℝ)

/-- The body of `predict`'s outer loop for one observed row: resolve the five
parameters, derive the subject's error rt range, then run `n_repeats`
simulations building the predicted rows. -/
noncomputable def predictTrial {m : ℕ} (M : Model m) (n_repeats : ℕ)
    (boundary error_weight : ℝ) (d : ℕ → Draws m) (row : QRow) :
    Except PyErr (List RRow) := do
  let v ← resolveParam M row "v"
  let gamma ← resolveParam M row "gamma"
  let s ← resolveParam M row "s"
  let tau ← resolveParam M row "tau"
  let t0 ← resolveParam M row "t0"
  let lo ← qListMin (subjectRTList M row)
  let hi ← qListMax (subjectRTList M row)
  exceptMap (fun r =>
      (simulate_trial (↑v) (↑gamma) (↑s) (↑tau) (↑t0) boundary error_weight
          (rowVals row) (rowGaze row) ((↑lo : ℝ), (↑hi : ℝ)) (d r)).map
        (fun p => updateRow row p.1 p.2 r))
    (List.range n_repeats)

/-- `predict`'s outer loop from row index `j` on, appending each trial's
predicted rows to the accumulating flat table. -/
noncomputable def predictRows {m : ℕ} (M : Model m) (n_repeats : ℕ)
    (boundary error_weight : ℝ) (draws : ℕ → ℕ → Draws m) :
    ℕ → List QRow → Except PyErr (List RRow)
  | _, [] => .ok []
  | j, row :: rest => do
    let g ← predictTrial M n_repeats boundary error_weight (draws j) row
    let rest' ← predictRows M n_repeats boundary error_weight draws (j + 1) rest
    pure (g ++ rest')

/-- `predict(model, n_repeats, boundary, error_weight)`: one block of
`n_repeats` predicted rows per observed row, in input order.  (`verbose` only
toggles a progress display and is not modelled.) -/
noncomputable def predict {m : ℕ} (M : Model m) (n_repeats : ℕ)
    (boundary error_weight : ℝ) (draws : ℕ → ℕ → Draws m) :
    Except PyErr (List RRow) :=
  predictRows M n_repeats boundary error_weight draws 0 M.data


/-! ## Concrete fixtures used by counterexamples and witnesses -/

/-- A trial row whose condition column differs from every estimate row's. -/
def ceRow : QRow := fun c => if c = "cond" then 2 else 0

/-- An estimate row with condition value `1`. -/
def ceEst : QRow := fun c => if c = "cond" then 1 else 0

/-- A model whose `v` estimate depends on `cond`, with no estimate row
matching the trial's condition value. -/
def ceModel : Model 1 := ⟨[ceRow], [ceEst], fun p => if p = "v" then some "cond" else none⟩

/-- A well-formed one-trial observed row (rt `3`). -/
def pwRow : QRow := fun c => if c = "rt" then 3 else 0

/-- A single all-zero estimate row. -/
def pwEst : QRow := fun _ => 0

/-- A well-formed one-subject, one-trial model with no dependencies. -/
def pwModel : Model 1 := ⟨[pwRow], [pwEst], fun _ => none⟩

/-- Constant draw oracles: branch draw `0`, error draw `0`, sampler `1`. -/
noncomputable def oneDraws : ℕ → ℕ → Draws 1 := fun _ _ => ⟨0, 0, 0, fun _ _ _ _ => 1⟩

/-- The rt the error branch produces for `pwModel`'s subject range `(3, 3)`. -/
noncomputable def rtx0 : ℝ := ((3:ℚ):ℝ) + (((3:ℚ):ℝ) - ((3:ℚ):ℝ)) * 0

/-! ## Helper lemmas -/

theorem erase_univ_nonempty {n : ℕ} (hn : 2 ≤ n) (i : Fin n) :
    ((Finset.univ : Finset (Fin n)).erase i).Nonempty := by
  rw [← Finset.card_pos, Finset.card_erase_of_mem (Finset.mem_univ i),
    Finset.card_univ, Fintype.card_fin]
  omega

theorem make_R_eq {n : ℕ} (v tau gamma : ℝ) (values gaze : Fin n → ℝ)
    (h : ∀ i : Fin n, ((Finset.univ : Finset (Fin n)).erase i).Nonempty) :
    make_R v tau gamma values gaze = some (fun i =>
      v / (1 + Real.exp (-tau * (attValue gamma values gaze i -
        ((Finset.univ : Finset (Fin n)).erase i).sup' (h i)
          (attValue gamma values gaze))))) :=
  dif_pos h

/-! ## C1: attention-weighted value, max over the other items, logistic -/

/-- C1.  For `n ≥ 2` items, `make_R` returns the vector `R` where, for each
item `i`, `A_i = gaze_i * values_i + (1 - gaze_i) * gamma * values_i`,
`R*_i = A_i - M_i` with `M_i` the greatest attention-weighted value among the
OTHER items `j ≠ i` (not the global maximum), and
`R_i = v / (1 + exp(-tau * R*_i))`. -/
theorem make_R_attention_relative_logistic {n : ℕ} (hn : 2 ≤ n)
    (v tau gamma : ℝ) (values gaze : Fin n → ℝ) :
    ∃ R, make_R v tau gamma values gaze = some R ∧
      ∀ i, ∃ M,
        IsGreatest {x : ℝ | ∃ j : Fin n, j ≠ i ∧
          x = gaze j * values j + (1 - gaze j) * gamma * values j} M ∧
        R i = v / (1 + Real.exp (-tau *
          ((gaze i * values i + (1 - gaze i) * gamma * values i) - M))) := by
  have h : ∀ i : Fin n, ((Finset.univ : Finset (Fin n)).erase i).Nonempty :=
    erase_univ_nonempty hn
  refine ⟨_, make_R_eq v tau gamma values gaze h, fun i => ?_⟩
  refine ⟨((Finset.univ : Finset (Fin n)).erase i).sup' (h i)
    (attValue gamma values gaze), ⟨?_, ?_⟩, ?_⟩
  · obtain ⟨j, hj, hfj⟩ :=
      Finset.exists_mem_eq_sup' (h i) (attValue gamma values gaze)
    exact ⟨j, (Finset.mem_erase.mp hj).1, by rw [hfj]; rfl⟩
  · rintro x ⟨j, hji, rfl⟩
    exact Finset.le_sup' (attValue gamma values gaze)
      (Finset.mem_erase.mpr ⟨hji, Finset.mem_univ j⟩)
  · simp only [attValue]

/-- C1 witness: a concrete two-item instance. -/
theorem make_R_attention_relative_logistic_witness :
    ∃ R, make_R (1 : ℝ) 1 1 (![2, 3]) (![1, 0]) = some R ∧
      ∀ i, ∃ M,
        IsGreatest {x : ℝ | ∃ j : Fin 2, j ≠ i ∧
          x = ![1, 0] j * ![2, 3] j + (1 - ![1, 0] j) * 1 * ![2, 3] j} M ∧
        R i = 1 / (1 + Real.exp (-1 *
          ((![1, 0] i * ![2, 3] i + (1 - ![1, 0] i) * 1 * ![2, 3] i) - M))) :=
  make_R_attention_relative_logistic (by norm_num) 1 1 1 (![2, 3]) (![1, 0])

/-! ## C9: symmetry for two identical items -/

/-- C9.  For two items with equal value and equal gaze, both relative
evidences vanish (`A_0 = A_1`, so `R*_0 = R*_1 = 0`) and `make_R` yields
`R_0 = R_1 = v / 2`, for every `v`, `gamma`, `tau`. -/
theorem make_R_equal_items_half_v (v tau gamma : ℝ) (values gaze : Fin 2 → ℝ)
    (hval : values 0 = values 1) (hgaze : gaze 0 = gaze 1) :
    attValue gamma values gaze 0 = attValue gamma values gaze 1 ∧
    ∃ R, make_R v tau gamma values gaze = some R ∧
      R 0 = v / 2 ∧ R 1 = v / 2 := by
  have h : ∀ i : Fin 2, ((Finset.univ : Finset (Fin 2)).erase i).Nonempty :=
    erase_univ_nonempty le_rfl
  have hA : attValue gamma values gaze 0 = attValue gamma values gaze 1 := by
    unfold attValue; rw [hval, hgaze]
  have hs0 : ((Finset.univ : Finset (Fin 2)).erase 0).sup' (h 0)
      (attValue gamma values gaze) = attValue gamma values gaze 1 := by
    refine le_antisymm (Finset.sup'_le _ _ fun j hj => ?_)
      (Finset.le_sup' _ (by decide))
    fin_cases j
    · simp at hj
    · exact le_rfl
  have hs1 : ((Finset.univ : Finset (Fin 2)).erase 1).sup' (h 1)
      (attValue gamma values gaze) = attValue gamma values gaze 0 := by
    refine le_antisymm (Finset.sup'_le _ _ fun j hj => ?_)
      (Finset.le_sup' _ (by decide))
    fin_cases j
    · exact le_rfl
    · simp at hj
  refine ⟨hA, _, make_R_eq v tau gamma values gaze h, ?_, ?_⟩
  · show v / (1 + Real.exp (-tau * (attValue gamma values gaze 0 -
      ((Finset.univ : Finset (Fin 2)).erase 0).sup' (h 0)
        (attValue gamma values gaze)))) = v / 2
    rw [hs0, hA, sub_self, mul_zero, Real.exp_zero]
    norm_num
  · show v / (1 + Real.exp (-tau * (attValue gamma values gaze 1 -
      ((Finset.univ : Finset (Fin 2)).erase 1).sup' (h 1)
        (attValue gamma values gaze)))) = v / 2
    rw [hs1, hA, sub_self, mul_zero, Real.exp_zero]
    norm_num

/-- C9 witness: equal values `3`, equal gazes `1/2`. -/
theorem make_R_equal_items_half_v_witness :
    attValue (7 : ℝ) (![3, 3]) (![1/2, 1/2]) 0 =
      attValue (7 : ℝ) (![3, 3]) (![1/2, 1/2]) 1 ∧
    ∃ R, make_R (5 : ℝ) 2 7 (![3, 3]) (![1/2, 1/2]) = some R ∧
      R 0 = 5 / 2 ∧ R 1 = 5 / 2 :=
  make_R_equal_items_half_v 5 2 7 (![3, 3]) (![1/2, 1/2]) rfl rfl

/-! ## Evaluation helpers for `simulate_trial` -/

theorem make_R_single_none (v tau gamma : ℝ) (values gaze : Fin 1 → ℝ) :
    make_R v tau gamma values gaze = none :=
  dif_neg (by decide)

theorem argminFin_spec {n : ℕ} (f : Fin n → ℝ)
    (h : (Finset.univ : Finset (Fin n)).Nonempty) :
    f (argminFin f h) = Finset.univ.inf' h f ∧
      ∀ j : Fin n, f j = Finset.univ.inf' h f → argminFin f h ≤ j := by
  unfold argminFin
  constructor
  · exact (Finset.mem_filter.mp (Finset.min'_mem
      (Finset.univ.filter fun i => f i = Finset.univ.inf' h f) _)).2
  · intro j hj
    exact Finset.min'_le (Finset.univ.filter fun i => f i = Finset.univ.inf' h f)
      j (Finset.mem_filter.mpr ⟨Finset.mem_univ j, hj⟩)

theorem simulate_trial_error_branch {m : ℕ}
    (v gamma s tau t0 boundary error_weight : ℝ) (values gaze : Fin m → ℝ)
    (er : ℝ × ℝ) (d : Draws m) (hu : d.u < error_weight) (hm : 0 < m) :
    simulate_trial v gamma s tau t0 boundary error_weight values gaze er d =
      .ok (d.echoice % m, er.1 + (er.2 - er.1) * d.uerr) := by
  unfold simulate_trial
  rw [if_pos hu, if_pos hm]

theorem simulate_trial_race_stall {m : ℕ}
    (v gamma s tau t0 boundary error_weight : ℝ) (values gaze : Fin m → ℝ)
    (er : ℝ × ℝ) (d : Draws m) (hu : ¬ d.u < error_weight) {R : Fin m → ℝ}
    (hR : make_R v tau gamma values gaze = some R)
    (hm : (Finset.univ : Finset (Fin m)).Nonempty)
    (hno : ∀ k, ¬ 0 ≤ Finset.univ.inf' hm (FPT boundary s R d.fpt k)) :
    simulate_trial v gamma s tau t0 boundary error_weight values gaze er d =
      .error .nonTermination := by
  unfold simulate_trial
  rw [if_neg hu, hR]
  exact (dif_pos hm).trans (dif_neg (not_exists.mpr hno))

theorem simulate_trial_race_found {m : ℕ}
    (v gamma s tau t0 boundary error_weight : ℝ) (values gaze : Fin m → ℝ)
    (er : ℝ × ℝ) (d : Draws m) (hu : ¬ d.u < error_weight) {R : Fin m → ℝ}
    (hR : make_R v tau gamma values gaze = some R)
    (hm : (Finset.univ : Finset (Fin m)).Nonempty)
    (hex : ∃ k, 0 ≤ Finset.univ.inf' hm (FPT boundary s R d.fpt k)) :
    simulate_trial v gamma s tau t0 boundary error_weight values gaze er d =
      .ok ((argminFin (FPT boundary s R d.fpt (Nat.find hex)) hm).val,
        Finset.univ.inf' hm (FPT boundary s R d.fpt (Nat.find hex)) + t0) := by
  unfold simulate_trial
  rw [if_neg hu, hR]
  exact (dif_pos hm).trans (dif_pos hex)

/-! ## C10: the evidence-rate computation needs at least two items -/

/-- C10.  For a single item the set of "other" items is empty and its `max`
raises: `make_R` returns no vector, so the race branch of `simulate_trial`
cannot return a result for `n_items = 1`, while the error branch still
returns a choice (necessarily item `0`) and an rt. -/
theorem single_item_race_fails (v gamma s tau t0 boundary error_weight : ℝ)
    (values gaze : Fin 1 → ℝ) (er : ℝ × ℝ) (d : Draws 1) :
    make_R v tau gamma values gaze = none ∧
    (¬ d.u < error_weight →
      simulate_trial v gamma s tau t0 boundary error_weight values gaze er d =
        .error .valueError) ∧
    (d.u < error_weight →
      ∃ rt, simulate_trial v gamma s tau t0 boundary error_weight values gaze
        er d = .ok (0, rt)) := by
  refine ⟨make_R_single_none v tau gamma values gaze, fun hu => ?_, fun hu => ?_⟩
  · unfold simulate_trial
    rw [if_neg hu, make_R_single_none v tau gamma values gaze]
  · refine ⟨er.1 + (er.2 - er.1) * d.uerr, ?_⟩
    have := simulate_trial_error_branch v gamma s tau t0 boundary error_weight
      values gaze er d hu (by norm_num)
    simpa [Nat.mod_one] using this

/-- C10 witness: concrete single-item inputs exercising both branches. -/
theorem single_item_race_fails_witness :
    simulate_trial (1 : ℝ) 1 1 1 1 1 0 (fun _ => 1) (fun _ => 1) (0, 1)
      (⟨1, 0, 0, fun _ _ _ _ => 1⟩ : Draws 1) = .error .valueError ∧
    ∃ rt, simulate_trial (1 : ℝ) 1 1 1 1 1 1 (fun _ => 1) (fun _ => 1) (0, 1)
      (⟨0, 0, 0, fun _ _ _ _ => 1⟩ : Draws 1) = .ok (0, rt) :=
  ⟨((single_item_race_fails 1 1 1 1 1 1 0 (fun _ => 1) (fun _ => 1) (0, 1)
      ⟨1, 0, 0, fun _ _ _ _ => 1⟩).2.1 (by norm_num)),
   ((single_item_race_fails 1 1 1 1 1 1 1 (fun _ => 1) (fun _ => 1) (0, 1)
      ⟨0, 0, 0, fun _ _ _ _ => 1⟩).2.2 (by norm_num))⟩

/-! ## C4: the inverse-Gaussian reparameterization -/

/-- C4.  Each first-passage draw of the race branch invokes the
inverse-Gaussian sampler with mean argument `mu / lam` and scale argument
`lam`, where `mu = boundary / R_i` and `lam = (boundary / s)^2` — exactly
this reparameterization, in this argument order. -/
theorem FPT_invgauss_reparameterization {n : ℕ} (boundary s : ℝ)
    (R : Fin n → ℝ) (smp : ℕ → Fin n → ℝ → ℝ → ℝ) (k : ℕ) (i : Fin n) :
    FPT boundary s R smp k i =
      smp k i ((boundary / R i) / ((boundary / s) ^ 2)) ((boundary / s) ^ 2) :=
  rfl

/-! ## C3: the race branch adds `t0` to a valid minimum -/

/-- C3.  With `error_weight = 0` (and the branch draw in the uniform(0,1)
support), whenever `simulate_trial` returns, the race branch was taken: there
is a first iteration `k` whose sampled first-passage times are all
non-negative (every earlier iteration had a negative one), the choice is the
argmin of iteration `k`'s times (least index attaining the minimum), and the
rt is that minimum plus `t0`; in particular `t0 ≤ rt`. -/
theorem race_branch_rt_structure {m : ℕ}
    (v gamma s tau t0 boundary : ℝ) (values gaze : Fin m → ℝ)
    (er : ℝ × ℝ) (d : Draws m) (c : ℕ) (rt : ℝ) (hu : 0 ≤ d.u)
    (hok : simulate_trial v gamma s tau t0 boundary 0 values gaze er d =
      .ok (c, rt)) :
    t0 ≤ rt ∧
    ∃ R k, make_R v tau gamma values gaze = some R ∧
      (∀ j, j < k → ∃ i, FPT boundary s R d.fpt j i < 0) ∧
      (∀ i, 0 ≤ FPT boundary s R d.fpt k i) ∧
      ∃ i : Fin m, c = i.val ∧
        (∀ j, FPT boundary s R d.fpt k i ≤ FPT boundary s R d.fpt k j) ∧
        (∀ j, FPT boundary s R d.fpt k j = FPT boundary s R d.fpt k i → i ≤ j) ∧
        rt = FPT boundary s R d.fpt k i + t0 := by
  unfold simulate_trial at hok
  rw [if_neg (not_lt.mpr hu)] at hok
  cases hmr : make_R v tau gamma values gaze with
  | none => rw [hmr] at hok; exact absurd hok (by simp)
  | some R =>
    rw [hmr] at hok
    simp only [] at hok
    split_ifs at hok with hm hex
    · rw [Except.ok.injEq, Prod.mk.injEq] at hok
      obtain ⟨hc, hrt⟩ := hok
      set k := Nat.find hex with hk
      have hvalid : 0 ≤ Finset.univ.inf' hm (FPT boundary s R d.fpt k) :=
        Nat.find_spec hex
      have hargmin := argminFin_spec (FPT boundary s R d.fpt k) hm
      refine ⟨?_, R, k, rfl, ?_, ?_, argminFin (FPT boundary s R d.fpt k) hm,
        hc.symm, ?_, ?_, ?_⟩
      · rw [← hrt]
        exact le_add_of_nonneg_left hvalid
      · intro j hj
        have hnot := Nat.find_min hex hj
        obtain ⟨i, _, hi⟩ := (Finset.inf'_lt_iff hm).mp (not_le.mp hnot)
        exact ⟨i, hi⟩
      · intro i
        exact le_trans hvalid (Finset.inf'_le _ (Finset.mem_univ i))
      · intro j
        rw [hargmin.1]
        exact Finset.inf'_le _ (Finset.mem_univ j)
      · intro j hj
        exact hargmin.2 j (hj.trans hargmin.1)
      · rw [← hrt, hargmin.1]

theorem sim_const_one_eval (v gamma s tau t0 boundary error_weight : ℝ)
    (values gaze : Fin 2 → ℝ) (er : ℝ × ℝ) (u' : ℝ) (ech : ℕ)
    (hu : ¬ u' < error_weight) :
    simulate_trial v gamma s tau t0 boundary error_weight values gaze er
      ⟨u', 0, ech, fun _ _ _ _ => 1⟩ = .ok (0, 1 + t0) := by
  obtain ⟨R, hR⟩ : ∃ R, make_R v tau gamma values gaze = some R :=
    ⟨_, make_R_eq v tau gamma values gaze (erase_univ_nonempty le_rfl)⟩
  have hne : (Finset.univ : Finset (Fin 2)).Nonempty := ⟨0, Finset.mem_univ 0⟩
  have hFPT : ∀ k, FPT boundary s R (fun _ _ _ _ => (1:ℝ)) k =
      fun _ => (1:ℝ) := fun _ => rfl
  have hinf : ∀ k, Finset.univ.inf' hne
      (FPT boundary s R (fun _ _ _ _ => (1:ℝ)) k) = 1 := by
    intro k
    rw [hFPT k]
    exact Finset.inf'_const hne 1
  have hex : ∃ k, 0 ≤ Finset.univ.inf' hne
      (FPT boundary s R (fun _ _ _ _ => (1:ℝ)) k) :=
    ⟨0, by rw [hinf 0]; norm_num⟩
  have heval := simulate_trial_race_found v gamma s tau t0 boundary error_weight
    values gaze er ⟨u', 0, ech, fun _ _ _ _ => 1⟩ hu hR hne hex
  have hfind : Nat.find hex = 0 := (Nat.find_eq_zero hex).mpr (by
    rw [hinf 0]; norm_num)
  have harg : argminFin (fun _ => (1:ℝ)) hne = 0 := by
    refine le_antisymm ((argminFin_spec (fun _ => (1:ℝ)) hne).2 0 ?_) (Fin.zero_le _)
    exact (Finset.inf'_const hne 1).symm
  rw [heval, hfind, hinf 0]
  rw [show FPT boundary s R (fun _ _ _ _ => (1:ℝ)) 0 = fun _ => (1:ℝ) from rfl,
    harg]
  rfl

/-- C3 witness: with a constant sampler returning `1`, `error_weight = 0`,
`t0 = 5`, the returned rt is `1 + 5 ≥ 5`. -/
theorem race_branch_rt_structure_witness : (5:ℝ) ≤ 1 + 5 :=
  (race_branch_rt_structure 1 1 1 1 5 1 (fun _ : Fin 2 => 1) (fun _ => 1)
    (0, 1) ⟨0, 0, 0, fun _ _ _ _ => 1⟩ 0 (1 + 5) (le_refl 0)
    (sim_const_one_eval 1 1 1 1 5 1 0 (fun _ => 1) (fun _ => 1) (0, 1) 0 0
      (by norm_num))).1

/-! ## C2: the resampling loop is unbounded -/

/-- C2 (amended).  The race-branch resampling loop has no retry bound and no
stalled-condition signal: when every iteration's first-passage draws are all
negative, `simulate_trial` never returns a value — the `while np.isnan(rt)`
loop never exits, modelled as the `nonTermination` outcome. -/
theorem race_loop_unbounded_stalls {m : ℕ}
    (v gamma s tau t0 boundary error_weight : ℝ) (values gaze : Fin m → ℝ)
    (er : ℝ × ℝ) (d : Draws m) (hu : ¬ d.u < error_weight) {R : Fin m → ℝ}
    (hR : make_R v tau gamma values gaze = some R)
    (hm : (Finset.univ : Finset (Fin m)).Nonempty)
    (hneg : ∀ k i, FPT boundary s R d.fpt k i < 0) :
    simulate_trial v gamma s tau t0 boundary error_weight values gaze er d =
      .error .nonTermination := by
  refine simulate_trial_race_stall v gamma s tau t0 boundary error_weight
    values gaze er d hu hR hm (fun k => not_le.mpr ?_)
  obtain ⟨i0, hi0⟩ := hm
  exact lt_of_le_of_lt (Finset.inf'_le _ hi0) (hneg k i0)

/-- C2 counterexample: a concrete two-item input (constant `-1` sampler,
`error_weight = 0`) on which the reference loop never exits, so
`simulate_trial` does not terminate for every input and surfaces no
stalled condition. -/
theorem race_loop_counterexample :
    simulate_trial (1:ℝ) 1 1 1 1 1 0 (fun _ : Fin 2 => 1) (fun _ => 1) (0, 1)
      ⟨0, 0, 0, fun _ _ _ _ => -1⟩ = .error .nonTermination := by
  obtain ⟨R, hR⟩ : ∃ R, make_R (1:ℝ) 1 1 (fun _ : Fin 2 => 1) (fun _ => 1) =
      some R :=
    ⟨_, make_R_eq 1 1 1 _ _ (erase_univ_nonempty le_rfl)⟩
  have hne : (Finset.univ : Finset (Fin 2)).Nonempty := ⟨0, Finset.mem_univ 0⟩
  refine simulate_trial_race_stall 1 1 1 1 1 1 0 _ _ (0, 1)
    ⟨0, 0, 0, fun _ _ _ _ => -1⟩ (by norm_num) hR hne (fun k => not_le.mpr ?_)
  have : FPT (1:ℝ) 1 R (fun _ _ _ _ => (-1:ℝ)) k = fun _ => (-1:ℝ) := rfl
  rw [this, Finset.inf'_const hne (-1 : ℝ)]
  norm_num

/-- C2 witness: the amended statement at a concrete input (constant `-2`
sampler). -/
theorem race_loop_unbounded_stalls_witness :
    simulate_trial (1:ℝ) 1 1 1 1 1 0 (fun _ : Fin 2 => 1) (fun _ => 1) (0, 1)
      ⟨0, 0, 0, fun _ _ _ _ => -2⟩ = .error .nonTermination := by
  obtain ⟨R, hR⟩ : ∃ R, make_R (1:ℝ) 1 1 (fun _ : Fin 2 => 1) (fun _ => 1) =
      some R :=
    ⟨_, make_R_eq 1 1 1 _ _ (erase_univ_nonempty le_rfl)⟩
  refine race_loop_unbounded_stalls 1 1 1 1 1 1 0 _ _ (0, 1)
    ⟨0, 0, 0, fun _ _ _ _ => -2⟩ (by norm_num) hR ⟨0, Finset.mem_univ 0⟩
    (fun k i => ?_)
  show (-2 : ℝ) < 0
  norm_num

/-! ## Bind evaluation lemmas for the `Except` loops -/

theorem ebind_ok {α β : Type} (a : α) (f : α → Except PyErr β) :
    (Except.ok a >>= f) = f a := rfl

theorem ebind_err {α β : Type} (e : PyErr) (f : α → Except PyErr β) :
    ((Except.error e : Except PyErr α) >>= f) = .error e := rfl

theorem exceptMap_ok_mem {α β : Type} (f : α → Except PyErr β) :
    ∀ (l : List α) (out : List β), exceptMap f l = .ok out →
      ∀ b ∈ out, ∃ a ∈ l, f a = .ok b := by
  intro l
  induction l with
  | nil =>
    intro out hok b hb
    rw [exceptMap] at hok
    cases hok
    simp at hb
  | cons x xs ih =>
    intro out hok b hb
    rw [exceptMap] at hok
    cases hfx : f x with
    | error e => rw [hfx, ebind_err] at hok; cases hok
    | ok y =>
      rw [hfx, ebind_ok] at hok
      cases hrest : exceptMap f xs with
      | error e => rw [hrest, ebind_err] at hok; cases hok
      | ok ys =>
        rw [hrest, ebind_ok] at hok
        cases hok
        rcases List.mem_cons.mp hb with rfl | hmem
        · exact ⟨x, List.mem_cons_self x xs, hfx⟩
        · obtain ⟨a, ha, hfa⟩ := ih ys hrest b hmem
          exact ⟨a, List.mem_cons_of_mem x ha, hfa⟩

theorem exceptFlatMap_ok_mem {α β : Type} (f : α → Except PyErr (List β)) :
    ∀ (l : List α) (out : List β), exceptFlatMap f l = .ok out →
      ∀ b ∈ out, ∃ a ∈ l, ∃ g, f a = .ok g ∧ b ∈ g := by
  intro l
  induction l with
  | nil =>
    intro out hok b hb
    rw [exceptFlatMap] at hok
    cases hok
    simp at hb
  | cons x xs ih =>
    intro out hok b hb
    rw [exceptFlatMap] at hok
    cases hfx : f x with
    | error e => rw [hfx, ebind_err] at hok; cases hok
    | ok g =>
      rw [hfx, ebind_ok] at hok
      cases hrest : exceptFlatMap f xs with
      | error e => rw [hrest, ebind_err] at hok; cases hok
      | ok rest =>
        rw [hrest, ebind_ok] at hok
        cases hok
        rcases List.mem_append.mp hb with hmem | hmem
        · exact ⟨x, List.mem_cons_self x xs, g, hfx, hmem⟩
        · obtain ⟨a, ha, g', hfa, hg'⟩ := ih rest hrest b hmem
          exact ⟨a, List.mem_cons_of_mem x ha, g', hfa, hg'⟩

theorem simulate_trial_rt_nonneg {m : ℕ}
    (v gamma s tau t0 boundary error_weight : ℝ) (values gaze : Fin m → ℝ)
    (er : ℝ × ℝ) (d : Draws m) (ht0 : 0 ≤ t0) (hlo : 0 ≤ er.1)
    (hrange : er.1 ≤ er.2) (huerr : 0 ≤ d.uerr) (c : ℕ) (rt : ℝ)
    (hok : simulate_trial v gamma s tau t0 boundary error_weight values gaze
      er d = .ok (c, rt)) : 0 ≤ rt := by
  unfold simulate_trial at hok
  by_cases hbr : d.u < error_weight
  · rw [if_pos hbr] at hok
    by_cases hm : 0 < m
    · rw [if_pos hm, Except.ok.injEq, Prod.mk.injEq] at hok
      rw [← hok.2]
      have h2 : 0 ≤ (er.2 - er.1) * d.uerr :=
        mul_nonneg (sub_nonneg.mpr hrange) huerr
      linarith
    · rw [if_neg hm] at hok; cases hok
  · rw [if_neg hbr] at hok
    cases hmr : make_R v tau gamma values gaze with
    | none => rw [hmr] at hok; cases hok
    | some R =>
      rw [hmr] at hok
      simp only [] at hok
      by_cases hne : (Finset.univ : Finset (Fin m)).Nonempty
      · rw [dif_pos hne] at hok
        by_cases hex : ∃ k, 0 ≤ Finset.univ.inf' hne (FPT boundary s R d.fpt k)
        · rw [dif_pos hex, Except.ok.injEq, Prod.mk.injEq] at hok
          rw [← hok.2]
          exact add_nonneg (Nat.find_spec hex) ht0
        · rw [dif_neg hex] at hok; cases hok
      · rw [dif_neg hne] at hok; cases hok

/-! ## C8: emitted response times are never negative (amended) -/

/-- C8 (amended).  Provided `t0 ≥ 0`, the error range has non-negative lower
endpoint `lo ≤ hi`, and the uniform error draws lie in `[0, 1)` as sampled,
every row stored by `simulate_subject` carries a non-negative rt (the race
branch only accepts a non-negative minimum and adds `t0`; the error branch
draws inside the error range).  Without the `t0 ≥ 0` and error-range
provisos the code can emit a negative rt, so the unconditional claim fails. -/
theorem simulate_subject_rt_nonneg {m : ℕ} (v gamma s tau t0 : ℝ)
    (values gaze : ℕ → Fin m → ℝ) (n_trials n_repeats : ℕ)
    (subject boundary error_weight : ℝ) (er : ℝ × ℝ) (draws : ℕ → ℕ → Draws m)
    (ht0 : 0 ≤ t0) (hlo : 0 ≤ er.1) (hrange : er.1 ≤ er.2)
    (huerr : ∀ t r, 0 ≤ (draws t r).uerr) (out : List (SimRow m))
    (hout : simulate_subject v gamma s tau t0 values gaze n_trials n_repeats
      subject boundary error_weight er draws = .ok out)
    (row : SimRow m) (hrow : row ∈ out) : 0 ≤ row.rt := by
  unfold simulate_subject at hout
  obtain ⟨trial, -, g, hg, hrowg⟩ :=
    exceptFlatMap_ok_mem _ _ _ hout row hrow
  obtain ⟨rep, -, hrep⟩ := exceptMap_ok_mem _ _ _ hg row hrowg
  cases hsim : simulate_trial v gamma s tau t0 boundary error_weight
      (values trial) (gaze trial) er (draws trial rep) with
  | error e => rw [hsim] at hrep; cases hrep
  | ok p =>
    rw [hsim] at hrep
    simp only [Except.map] at hrep
    rw [Except.ok.injEq] at hrep
    have hrt : row.rt = p.2 := by rw [← hrep]
    rw [hrt]
    exact simulate_trial_rt_nonneg v gamma s tau t0 boundary error_weight
      (values trial) (gaze trial) er (draws trial rep) ht0 hlo hrange
      (huerr trial rep) p.1 p.2 (by rw [hsim])

/-- C8 counterexample: with `error_weight = 0` (in `[0,1]`) and `t0 = -10`,
`simulate_trial` returns the emitted pair `(0, 1 + -10)` whose rt is
negative, so the unconditional claim fails. -/
theorem emitted_rt_counterexample :
    simulate_trial (1:ℝ) 1 1 1 (-10) 1 0 (fun _ : Fin 2 => 1) (fun _ => 1)
      (0, 1) ⟨0, 0, 0, fun _ _ _ _ => 1⟩ = .ok (0, 1 + -10) ∧
    (1 : ℝ) + -10 < 0 :=
  ⟨sim_const_one_eval 1 1 1 1 (-10) 1 0 (fun _ => 1) (fun _ => 1) (0, 1) 0 0
    (by norm_num), by norm_num⟩

/-- C8 witness: a concrete one-trial, one-repeat error-branch table whose
stored rt is non-negative. -/
theorem simulate_subject_rt_nonneg_witness : (0:ℝ) ≤ 2 + (5 - 2) * 0 := by
  have hsim : simulate_trial (1:ℝ) 1 1 1 1 1 1 (fun _ : Fin 2 => 1)
      (fun _ => 1) (2, 5) ⟨0, 0, 0, fun _ _ _ _ => 1⟩ =
      .ok (0 % 2, 2 + (5 - 2) * 0) :=
    simulate_trial_error_branch 1 1 1 1 1 1 1 (fun _ => 1) (fun _ => 1) (2, 5)
      ⟨0, 0, 0, fun _ _ _ _ => 1⟩ (by norm_num) (by norm_num)
  have hsub : simulate_subject (1:ℝ) 1 1 1 1
      (fun _ _ => 1 : ℕ → Fin 2 → ℝ) (fun _ _ => 1 : ℕ → Fin 2 → ℝ) 1 1
      7 1 1 (2, 5) (fun _ _ => ⟨0, 0, 0, fun _ _ _ _ => 1⟩) =
      .ok ([⟨7, 0, 0, 0 % 2, 2 + (5 - 2) * 0, fun _ => 1, fun _ => 1⟩] :
        List (SimRow 2)) := by
    unfold simulate_subject
    rw [show List.range 1 = [0] from rfl]
    rw [exceptFlatMap, exceptMap, hsim]
    rw [show (Except.ok ((0:ℕ) % 2, (2:ℝ) + (5 - 2) * 0)).map
        (fun p : ℕ × ℝ => (⟨7, 0, 0, p.1, p.2, fun _ => 1, fun _ => 1⟩ :
          SimRow 2)) =
      .ok (⟨7, 0, 0, 0 % 2, 2 + (5 - 2) * 0, fun _ => 1, fun _ => 1⟩ :
        SimRow 2) from rfl]
    rfl
  exact simulate_subject_rt_nonneg 1 1 1 1 1
    (fun _ _ => 1 : ℕ → Fin 2 → ℝ) (fun _ _ => 1 : ℕ → Fin 2 → ℝ) 1 1
    7 1 1 (2, 5) (fun _ _ => ⟨0, 0, 0, fun _ _ _ _ => 1⟩) (by norm_num)
    (by norm_num) (by norm_num) (fun _ _ => le_refl 0) _ hsub
    ⟨7, 0, 0, 0 % 2, 2 + (5 - 2) * 0, fun _ => 1, fun _ => 1⟩
    (List.mem_singleton.mpr rfl)

theorem exceptMap_ok_length {α β : Type} (f : α → Except PyErr β) :
    ∀ (l : List α) (out : List β), exceptMap f l = .ok out →
      out.length = l.length := by
  intro l
  induction l with
  | nil => intro out hok; rw [exceptMap] at hok; cases hok; rfl
  | cons x xs ih =>
    intro out hok
    rw [exceptMap] at hok
    cases hfx : f x with
    | error e => rw [hfx, ebind_err] at hok; cases hok
    | ok y =>
      rw [hfx, ebind_ok] at hok
      cases hrest : exceptMap f xs with
      | error e => rw [hrest, ebind_err] at hok; cases hok
      | ok ys =>
        rw [hrest, ebind_ok] at hok
        cases hok
        simp [ih ys hrest]

theorem exceptMap_ok_get {α β : Type} (f : α → Except PyErr β) :
    ∀ (l : List α) (out : List β), exceptMap f l = .ok out →
      ∀ (i : ℕ) (a : α), l.get? i = some a →
        ∃ b, f a = .ok b ∧ out.get? i = some b := by
  intro l
  induction l with
  | nil => intro out hok i a hget; simp at hget
  | cons x xs ih =>
    intro out hok i a hget
    rw [exceptMap] at hok
    cases hfx : f x with
    | error e => rw [hfx, ebind_err] at hok; cases hok
    | ok y =>
      rw [hfx, ebind_ok] at hok
      cases hrest : exceptMap f xs with
      | error e => rw [hrest, ebind_err] at hok; cases hok
      | ok ys =>
        rw [hrest, ebind_ok] at hok
        cases hok
        cases i with
        | zero =>
          rw [show (x :: xs).get? 0 = some x from rfl, Option.some.injEq] at hget
          subst hget
          exact ⟨y, hfx, rfl⟩
        | succ i' =>
          obtain ⟨b, hfb, hget'⟩ := ih ys hrest i' a hget
          exact ⟨b, hfb, hget'⟩

theorem predictTrial_ok_parts {m : ℕ} (M : Model m) (nr : ℕ) (b ew : ℝ)
    (d : ℕ → Draws m) (row : QRow) (g : List RRow)
    (hok : predictTrial M nr b ew d row = .ok g) :
    ∃ v gamma s tau t0 lo hi,
      resolveParam M row "v" = .ok v ∧
      resolveParam M row "gamma" = .ok gamma ∧
      resolveParam M row "s" = .ok s ∧
      resolveParam M row "tau" = .ok tau ∧
      resolveParam M row "t0" = .ok t0 ∧
      qListMin (subjectRTList M row) = .ok lo ∧
      qListMax (subjectRTList M row) = .ok hi ∧
      g.length = nr ∧
      ∀ r, r < nr → ∃ ch rtv,
        simulate_trial (↑v) (↑gamma) (↑s) (↑tau) (↑t0) b ew (rowVals row)
          (rowGaze row) ((↑lo : ℝ), (↑hi : ℝ)) (d r) = .ok (ch, rtv) ∧
        g.get? r = some (updateRow row ch rtv r) := by
  unfold predictTrial at hok
  cases hv : resolveParam M row "v" with
  | error e => rw [hv, ebind_err] at hok; cases hok
  | ok v =>
  rw [hv, ebind_ok] at hok
  cases hgam : resolveParam M row "gamma" with
  | error e => rw [hgam, ebind_err] at hok; cases hok
  | ok gamma =>
  rw [hgam, ebind_ok] at hok
  cases hs : resolveParam M row "s" with
  | error e => rw [hs, ebind_err] at hok; cases hok
  | ok s =>
  rw [hs, ebind_ok] at hok
  cases htau : resolveParam M row "tau" with
  | error e => rw [htau, ebind_err] at hok; cases hok
  | ok tau =>
  rw [htau, ebind_ok] at hok
  cases ht0 : resolveParam M row "t0" with
  | error e => rw [ht0, ebind_err] at hok; cases hok
  | ok t0 =>
  rw [ht0, ebind_ok] at hok
  cases hlo : qListMin (subjectRTList M row) with
  | error e => rw [hlo, ebind_err] at hok; cases hok
  | ok lo =>
  rw [hlo, ebind_ok] at hok
  cases hhi : qListMax (subjectRTList M row) with
  | error e => rw [hhi, ebind_err] at hok; cases hok
  | ok hi =>
  rw [hhi, ebind_ok] at hok
  refine ⟨v, gamma, s, tau, t0, lo, hi, rfl, rfl, rfl, rfl, rfl, rfl, rfl,
    ?_, ?_⟩
  · rw [exceptMap_ok_length _ _ _ hok, List.length_range]
  · intro r hr
    obtain ⟨bb, hfb, hget⟩ := exceptMap_ok_get _ _ _ hok r r
      (List.get?_range hr)
    cases hsim : simulate_trial (↑v) (↑gamma) (↑s) (↑tau) (↑t0) b ew
        (rowVals row) (rowGaze row) ((↑lo : ℝ), (↑hi : ℝ)) (d r) with
    | error e => rw [hsim] at hfb; cases hfb
    | ok p =>
      rw [hsim] at hfb
      rw [show (Except.ok p).map
          (fun p : ℕ × ℝ => updateRow row p.1 p.2 r) =
          .ok (updateRow row p.1 p.2 r) from rfl, Except.ok.injEq] at hfb
      refine ⟨p.1, p.2, ?_, ?_⟩
      · rw [← hsim]
      · rw [hget, hfb]

theorem predictRows_ok_parts {m : ℕ} (M : Model m) (nr : ℕ) (b ew : ℝ)
    (draws : ℕ → ℕ → Draws m) :
    ∀ (data : List QRow) (j : ℕ) (out : List RRow),
      predictRows M nr b ew draws j data = .ok out →
      out.length = data.length * nr ∧
      ∀ (i : ℕ) (row : QRow), data.get? i = some row →
        ∃ g, predictTrial M nr b ew (draws (j + i)) row = .ok g ∧
          g.length = nr ∧
          ∀ r, r < nr → out.get? (i * nr + r) = g.get? r := by
  intro data
  induction data with
  | nil =>
    intro j out hok
    rw [predictRows] at hok
    cases hok
    exact ⟨by simp, fun i row h => by simp at h⟩
  | cons x xs ih =>
    intro j out hok
    rw [predictRows] at hok
    cases hg : predictTrial M nr b ew (draws j) x with
    | error e => rw [hg, ebind_err] at hok; cases hok
    | ok g =>
      rw [hg, ebind_ok] at hok
      cases hrest : predictRows M nr b ew draws (j + 1) xs with
      | error e => rw [hrest, ebind_err] at hok; cases hok
      | ok rest =>
        rw [hrest, ebind_ok] at hok
        cases hok
        obtain ⟨hlenrest, hparts⟩ := ih (j + 1) rest hrest
        have hglen : g.length = nr := by
          obtain ⟨v, gamma, s, tau, t0, lo, hi, -, -, -, -, -, -, -, hlen, -⟩ :=
            predictTrial_ok_parts M nr b ew (draws j) x g hg
          exact hlen
        constructor
        · rw [List.length_append, hglen, hlenrest, List.length_cons,
            Nat.succ_mul, Nat.add_comm]
        · intro i row hget
          cases i with
          | zero =>
            rw [show (x :: xs).get? 0 = some x from rfl,
              Option.some.injEq] at hget
            subst hget
            refine ⟨g, by rw [Nat.add_zero]; exact hg, hglen, fun r hr => ?_⟩
            rw [Nat.zero_mul, Nat.zero_add,
              List.get?_append (by rw [hglen]; exact hr)]
          | succ i' =>
            obtain ⟨g', hg', hglen', hout'⟩ := hparts i' row hget
            refine ⟨g', ?_, hglen', fun r hr => ?_⟩
            · rw [show j + (i' + 1) = j + 1 + i' from by omega]
              exact hg'
            · rw [show (i' + 1) * nr + r = g.length + (i' * nr + r) from by
                rw [hglen, Nat.succ_mul]; omega]
              rw [List.get?_append_right (Nat.le_add_right _ _),
                Nat.add_sub_cancel_left]
              exact hout' r hr

/-! ## C6: predicted rows only overwrite choice, rt and repeat -/

/-- C6.  For every observed trial `i` and repeat `r`, row `i * n_repeats + r`
of the table `predict` returns agrees with the observed row on every column
other than `choice`, `rt` and `repeat`; `repeat` is overwritten with `r`, and
`choice`/`rt` with the values simulated for that (trial, repeat). -/
theorem predict_frame_property {m : ℕ} (M : Model m) (nr : ℕ) (b ew : ℝ)
    (draws : ℕ → ℕ → Draws m) (out : List RRow) (i r : ℕ) (drow : QRow)
    (orow : RRow) (hok : predict M nr b ew draws = .ok out)
    (hdrow : M.data.get? i = some drow) (hr : r < nr)
    (horow : out.get? (i * nr + r) = some orow) :
    orow "repeat" = (r : ℝ) ∧
    (∀ c, c ≠ "choice" → c ≠ "rt" → c ≠ "repeat" →
      orow c = ((drow c : ℚ) : ℝ)) ∧
    ∃ v gamma s tau t0 lo hi ch rtv,
      simulate_trial (↑v) (↑gamma) (↑s) (↑tau) (↑t0) b ew (rowVals drow)
        (rowGaze drow) ((↑lo : ℝ), (↑hi : ℝ)) (draws i r) = .ok (ch, rtv) ∧
      orow "choice" = (ch : ℝ) ∧ orow "rt" = rtv := by
  unfold predict at hok
  obtain ⟨-, hparts⟩ := predictRows_ok_parts M nr b ew draws M.data 0 out hok
  obtain ⟨g, hg, -, hout⟩ := hparts i drow hdrow
  rw [Nat.zero_add] at hg
  obtain ⟨v, gamma, s, tau, t0, lo, hi, -, -, -, -, -, -, -, -, hper⟩ :=
    predictTrial_ok_parts M nr b ew (draws i) drow g hg
  obtain ⟨ch, rtv, hsim, hgr⟩ := hper r hr
  have horow' : orow = updateRow drow ch rtv r := by
    have := (hout r hr).symm.trans horow
    rw [hgr, Option.some.injEq] at this
    exact this.symm
  subst horow'
  refine ⟨?_, ?_, v, gamma, s, tau, t0, lo, hi, ch, rtv, hsim, ?_, ?_⟩
  · unfold updateRow
    rw [if_neg (by decide), if_neg (by decide), if_pos rfl]
  · intro c hc hcrt hcrep
    unfold updateRow
    rw [if_neg hc, if_neg hcrt, if_neg hcrep]
  · unfold updateRow
    rw [if_pos rfl]
  · unfold updateRow
    rw [if_neg (by decide), if_pos rfl]

theorem foldl_min_spec :
    ∀ (xs : List ℚ) (x : ℚ), xs.foldl min x ∈ x :: xs ∧
      xs.foldl min x ≤ x ∧ ∀ y ∈ xs, xs.foldl min x ≤ y := by
  intro xs
  induction xs with
  | nil =>
    intro x
    exact ⟨List.mem_singleton.mpr rfl, le_refl x,
      fun y hy => absurd hy (List.not_mem_nil y)⟩
  | cons z zs ih =>
    intro x
    obtain ⟨hmem, hle, hall⟩ := ih (min x z)
    refine ⟨?_, ?_, ?_⟩
    · show zs.foldl min (min x z) ∈ x :: z :: zs
      rcases List.mem_cons.mp hmem with h | h
      · rcases min_choice x z with hmin | hmin
        · rw [h, hmin]; exact List.mem_cons_self _ _
        · rw [h, hmin]; exact List.mem_cons_of_mem _ (List.mem_cons_self _ _)
      · exact List.mem_cons_of_mem _ (List.mem_cons_of_mem _ h)
    · show zs.foldl min (min x z) ≤ x
      exact le_trans hle (min_le_left x z)
    · intro y hy
      rcases List.mem_cons.mp hy with h | h
      · rw [h]
        exact le_trans hle (min_le_right x z)
      · exact hall y h

theorem foldl_max_spec :
    ∀ (xs : List ℚ) (x : ℚ), xs.foldl max x ∈ x :: xs ∧
      x ≤ xs.foldl max x ∧ ∀ y ∈ xs, y ≤ xs.foldl max x := by
  intro xs
  induction xs with
  | nil =>
    intro x
    exact ⟨List.mem_singleton.mpr rfl, le_refl x,
      fun y hy => absurd hy (List.not_mem_nil y)⟩
  | cons z zs ih =>
    intro x
    obtain ⟨hmem, hle, hall⟩ := ih (max x z)
    refine ⟨?_, ?_, ?_⟩
    · show zs.foldl max (max x z) ∈ x :: z :: zs
      rcases List.mem_cons.mp hmem with h | h
      · rcases max_choice x z with hmax | hmax
        · rw [h, hmax]; exact List.mem_cons_self _ _
        · rw [h, hmax]; exact List.mem_cons_of_mem _ (List.mem_cons_self _ _)
      · exact List.mem_cons_of_mem _ (List.mem_cons_of_mem _ h)
    · show x ≤ zs.foldl max (max x z)
      exact le_trans (le_max_left x z) hle
    · intro y hy
      rcases List.mem_cons.mp hy with h | h
      · rw [h]
        exact le_trans (le_max_right x z) hle
      · exact hall y h

theorem qListMin_spec (l : List ℚ) (q : ℚ) (h : qListMin l = .ok q) :
    q ∈ l ∧ ∀ x ∈ l, q ≤ x := by
  cases l with
  | nil => cases h
  | cons x xs =>
    rw [qListMin, Except.ok.injEq] at h
    subst h
    obtain ⟨hmem, hle, hall⟩ := foldl_min_spec xs x
    refine ⟨hmem, fun y hy => ?_⟩
    rcases List.mem_cons.mp hy with h | h
    · rw [h]; exact hle
    · exact hall y h

theorem qListMax_spec (l : List ℚ) (q : ℚ) (h : qListMax l = .ok q) :
    q ∈ l ∧ ∀ x ∈ l, x ≤ q := by
  cases l with
  | nil => cases h
  | cons x xs =>
    rw [qListMax, Except.ok.injEq] at h
    subst h
    obtain ⟨hmem, hle, hall⟩ := foldl_max_spec xs x
    refine ⟨hmem, fun y hy => ?_⟩
    rcases List.mem_cons.mp hy with h | h
    · rw [h]; exact hle
    · exact hall y h

/-! ## C7: the error range is the subject's own rt extrema -/

/-- C7.  For every observed trial processed by `predict`, the error range
handed to `simulate_trial` is the pair (minimum, maximum) of the observed rt
values of that trial's own subject only (`subjectRTList` filters
`model.data` by the row's subject before taking `rt`); two subjects with
different observed rt extrema therefore receive different ranges. -/
theorem predict_error_range_per_subject {m : ℕ} (M : Model m) (nr : ℕ)
    (b ew : ℝ) (draws : ℕ → ℕ → Draws m) (out : List RRow) (i r : ℕ)
    (drow : QRow) (hok : predict M nr b ew draws = .ok out)
    (hdrow : M.data.get? i = some drow) (hr : r < nr) :
    ∃ lo hi,
      qListMin (subjectRTList M drow) = .ok lo ∧
      qListMax (subjectRTList M drow) = .ok hi ∧
      lo ∈ subjectRTList M drow ∧ (∀ x ∈ subjectRTList M drow, lo ≤ x) ∧
      hi ∈ subjectRTList M drow ∧ (∀ x ∈ subjectRTList M drow, x ≤ hi) ∧
      ∃ v gamma s tau t0 ch rtv,
        simulate_trial (↑v) (↑gamma) (↑s) (↑tau) (↑t0) b ew (rowVals drow)
          (rowGaze drow) ((↑lo : ℝ), (↑hi : ℝ)) (draws i r) = .ok (ch, rtv) := by
  unfold predict at hok
  obtain ⟨-, hparts⟩ := predictRows_ok_parts M nr b ew draws M.data 0 out hok
  obtain ⟨g, hg, -, -⟩ := hparts i drow hdrow
  rw [Nat.zero_add] at hg
  obtain ⟨v, gamma, s, tau, t0, lo, hi, -, -, -, -, -, hlo, hhi, -, hper⟩ :=
    predictTrial_ok_parts M nr b ew (draws i) drow g hg
  obtain ⟨ch, rtv, hsim, -⟩ := hper r hr
  obtain ⟨hlomem, hloall⟩ := qListMin_spec _ _ hlo
  obtain ⟨himem, hiall⟩ := qListMax_spec _ _ hhi
  exact ⟨lo, hi, hlo, hhi, hlomem, hloall, himem, hiall,
    v, gamma, s, tau, t0, ch, rtv, hsim⟩

/-! ## C5: estimate-resolution failure aborts, but with a generic error -/

/-- C5 (amended).  When some parameter of some observed trial has a declared
dependency and no estimate row matches the subject and condition (so its
resolution raises), `predict` aborts — it never returns a table, substituting
no default — but the failure is the generic `ValueError` of assigning an
empty selection into a scalar slot, not a distinct `MissingEstimate`
condition. -/
theorem predict_missing_estimate_aborts {m : ℕ} (M : Model m) (nr : ℕ)
    (b ew : ℝ) (draws : ℕ → ℕ → Draws m) (i : ℕ) (drow : QRow)
    (pname : String) (hdrow : M.data.get? i = some drow)
    (hp : pname ∈ paramNames)
    (hfail : resolveParam M drow pname = .error .valueError)
    (out : List RRow) : predict M nr b ew draws ≠ .ok out := by
  intro hok
  unfold predict at hok
  obtain ⟨-, hparts⟩ := predictRows_ok_parts M nr b ew draws M.data 0 out hok
  obtain ⟨g, hg, -, -⟩ := hparts i drow hdrow
  obtain ⟨v, gamma, s, tau, t0, lo, hi, hv, hgam, hs, htau, ht0, -, -, -, -⟩ :=
    predictTrial_ok_parts M nr b ew (draws (0 + i)) drow g hg
  rw [show paramNames = ["v", "gamma", "s", "tau", "t0"] from rfl] at hp
  fin_cases hp
  · rw [hv] at hfail; cases hfail
  · rw [hgam] at hfail; cases hfail
  · rw [hs] at hfail; cases hfail
  · rw [htau] at hfail; cases hfail
  · rw [ht0] at hfail; cases hfail

/-- C5 counterexample: on `ceModel` (dependency on `cond`, no matching
estimate row) `predict` raises the generic `ValueError`, which is not a
distinct `MissingEstimate` condition. -/
theorem predict_no_missing_estimate_counterexample :
    predict ceModel 1 1 0 oneDraws = .error .valueError ∧
    PyErr.valueError ≠ PyErr.missingEstimate := by
  constructor
  · have hfail : resolveParam ceModel ceRow "v" = .error .valueError := rfl
    unfold predict
    rw [show ceModel.data = [ceRow] from rfl, predictRows]
    unfold predictTrial
    rw [hfail, ebind_err, ebind_err]
  · decide

/-- C5 witness: `predict` on `ceModel` returns no table. -/
theorem predict_missing_estimate_aborts_witness :
    predict ceModel 1 1 0 oneDraws ≠ .ok [] :=
  predict_missing_estimate_aborts ceModel 1 1 0 oneDraws 0 ceRow "v" rfl
    (by decide) rfl []

theorem predict_pw_eval :
    predict pwModel 1 1 1 oneDraws = .ok [updateRow pwRow 0 rtx0 0] := by
  have hres : ∀ p, resolveParam pwModel pwRow p = .ok 0 := fun _ => rfl
  have hsim : simulate_trial ((0:ℚ) : ℝ) ((0:ℚ) : ℝ) ((0:ℚ) : ℝ) ((0:ℚ) : ℝ)
      ((0:ℚ) : ℝ) 1 1 (rowVals pwRow) (rowGaze pwRow)
      (((3:ℚ) : ℝ), ((3:ℚ) : ℝ)) (oneDraws 0 0) = .ok (0, rtx0) := by
    have := simulate_trial_error_branch ((0:ℚ) : ℝ) ((0:ℚ) : ℝ) ((0:ℚ) : ℝ)
      ((0:ℚ) : ℝ) ((0:ℚ) : ℝ) 1 1 (rowVals pwRow) (rowGaze pwRow)
      (((3:ℚ) : ℝ), ((3:ℚ) : ℝ)) (oneDraws 0 0)
      (by show (0:ℝ) < 1; norm_num) (by norm_num)
    exact this
  have hpt : predictTrial pwModel 1 1 1 (oneDraws 0) pwRow =
      .ok [updateRow pwRow 0 rtx0 0] := by
    unfold predictTrial
    rw [hres "v", ebind_ok]
    rw [hres "gamma", ebind_ok]
    rw [hres "s", ebind_ok]
    rw [hres "tau", ebind_ok]
    rw [hres "t0", ebind_ok]
    rw [show qListMin (subjectRTList pwModel pwRow) = .ok (3:ℚ) from rfl,
      ebind_ok]
    rw [show qListMax (subjectRTList pwModel pwRow) = .ok (3:ℚ) from rfl,
      ebind_ok]
    rw [show List.range 1 = [0] from rfl, exceptMap, hsim]
    rfl
  unfold predict
  rw [show pwModel.data = [pwRow] from rfl, predictRows, hpt, ebind_ok,
    predictRows, ebind_ok]
  rfl

/-- C6 witness: the frame property at the concrete one-trial model. -/
theorem predict_frame_property_witness :
    (updateRow pwRow 0 rtx0 0) "repeat" = ((0:ℕ) : ℝ) ∧
    (∀ c, c ≠ "choice" → c ≠ "rt" → c ≠ "repeat" →
      (updateRow pwRow 0 rtx0 0) c = ((pwRow c : ℚ) : ℝ)) ∧
    ∃ (v gamma s tau t0 lo hi : ℝ) (ch : ℕ) (rtv : ℝ),
      simulate_trial v gamma s tau t0 1 1 (rowVals pwRow) (rowGaze pwRow)
        (lo, hi) (oneDraws 0 0) = .ok (ch, rtv) ∧
      (updateRow pwRow 0 rtx0 0) "choice" = (ch : ℝ) ∧
      (updateRow pwRow 0 rtx0 0) "rt" = rtv :=
  predict_frame_property pwModel 1 1 1 oneDraws [updateRow pwRow 0 rtx0 0]
    0 0 pwRow (updateRow pwRow 0 rtx0 0) predict_pw_eval rfl (by norm_num) rfl

/-- C7 witness: the subject-specific error range at the concrete model. -/
theorem predict_error_range_per_subject_witness :
    ∃ lo hi,
      qListMin (subjectRTList pwModel pwRow) = .ok lo ∧
      qListMax (subjectRTList pwModel pwRow) = .ok hi ∧
      lo ∈ subjectRTList pwModel pwRow ∧
      (∀ x ∈ subjectRTList pwModel pwRow, lo ≤ x) ∧
      hi ∈ subjectRTList pwModel pwRow ∧
      (∀ x ∈ subjectRTList pwModel pwRow, x ≤ hi) ∧
      ∃ (v gamma s tau t0 : ℝ) (ch : ℕ) (rtv : ℝ),
        simulate_trial v gamma s tau t0 1 1 (rowVals pwRow) (rowGaze pwRow)
          (((lo:ℚ) : ℝ), ((hi:ℚ) : ℝ)) (oneDraws 0 0) = .ok (ch, rtv) :=
  predict_error_range_per_subject pwModel 1 1 1 oneDraws
    [updateRow pwRow 0 rtx0 0] 0 0 pwRow predict_pw_eval rfl (by norm_num)
